import Mathlib

/-!
Verification of the cache-consistency, name/id resolution, content-splitting
and error-reporting logic of `pymochi.py` (a client library for a remote
flashcard service), as a shallow embedding in Lean 4.

The embedding mirrors the Python source: dictionaries keyed by deck name
become insertion-ordered association lists, Python exceptions become
`Except` values over an explicit exception type that records the Python
exception class, and network responses become explicit inputs to the
functions that consume them.
-/

namespace Pymochi

deriving instance DecidableEq for Except

/-- A deck record as held in the client's cache (class `Deck`): id, name and
optional parent id.  The back-reference to the owning client is not part of
the data model. -/
structure Deck where
  id : String
  name : String
  parentId : Option String
deriving Repr, DecidableEq

/-- A value of the cache dictionary `self.decks`: either a single `Deck` or a
list of decks sharing one name (`Union[Deck, List[Deck]]`).  In the source a
list value is only ever created with two elements and then appended to. -/
inductive DeckGroup where
  | one (d : Deck)
  | many (ds : List Deck)
deriving Repr, DecidableEq

/-- The decks of a cache value, in order. -/
def DeckGroup.toDecks : DeckGroup → List Deck
  | .one d => [d]
  | .many ds => ds

/-- The cache `self.decks : Dict[str, Union[Deck, List[Deck]]]`, modelled as
an insertion-ordered association list (Python dicts preserve insertion
order; new keys are appended, existing keys keep their position). -/
abbrev DeckMap : Type := List (String × DeckGroup)

/-- Dictionary lookup `self.decks[name]` / `name in self.decks`: the first
entry with the given key. -/
def mapFind (m : DeckMap) (k : String) : Option DeckGroup :=
  match m with
  | [] => none
  | (k', g) :: rest => if k' = k then some g else mapFind rest k

/-- Python falsy-or on optional strings: `a or b` takes `b` when `a` is
`None` or the empty string. -/
def orFalsy (a b : Option String) : Option String :=
  match a with
  | none => b
  | some s => if s = "" then b else some s

/-- One record of a deck-listing (or deck-creation) response: the JSON
fields the source reads.  `uid` is the `_id` field; the three parent fields
are `parent-id`, `parent_id` and `parent`.  Field values are modelled as
strings or absent (the source's handling of a non-string parent value,
which it replaces by `None`, is not modelled: no claim concerns it). -/
structure RawDeck where
  id : Option String
  uid : Option String
  name : Option String
  parentIdField : Option String
  parent_idField : Option String
  parentField : Option String
deriving Repr, DecidableEq

/-- `deck_data.get('id') or deck_data.get('_id')`. -/
def RawDeck.idOf (d : RawDeck) : Option String := orFalsy d.id d.uid

/-- `deck_data.get('parent-id') or deck_data.get('parent_id') or
deck_data.get('parent')`. -/
def RawDeck.parentOf (d : RawDeck) : Option String :=
  orFalsy (orFalsy d.parentIdField d.parent_idField) d.parentField

/-- The id/name validity check shared by the loader and `create_deck`:
`if not deck_id or deck_name is None` fails; otherwise the parsed
(id, name, parent) triple.  An empty-string name is allowed; an id that
resolves to `None` or `""` is rejected. -/
def parseRawDeck (d : RawDeck) : Option (String × String × Option String) :=
  match d.idOf, d.name with
  | some i, some n => if i = "" then none else some (i, n, d.parentOf)
  | _, _ => none

/-- One element of the `docs` list of a listing response: either not a JSON
object (skipped with a warning) or an object with the fields above. -/
inductive RawEntry where
  | notDict
  | dict (d : RawDeck)
deriving Repr, DecidableEq

/-- The deck built from one listing entry, or `none` when the loader skips
the entry (not a dict, missing/empty id, or missing name). -/
def parseEntry : RawEntry → Option Deck
  | .notDict => none
  | .dict d =>
    match parseRawDeck d with
    | none => none
    | some (i, n, p) => some ⟨i, n, p⟩

/-- Adding a deck to an existing cache value for its name: a single deck
becomes a two-element list, a list is appended to (`_load_decks_internal`,
collision handling). -/
def DeckGroup.add (g : DeckGroup) (d : Deck) : DeckGroup :=
  match g with
  | .one e => .many [e, d]
  | .many es => .many (es ++ [d])

/-- `deck_map[deck_name] = ...` in the loader loop: update the first entry
with this deck's name in place, or append a new singleton entry. -/
def insertDeck (m : DeckMap) (d : Deck) : DeckMap :=
  match m with
  | [] => [(d.name, .one d)]
  | (k, g) :: rest =>
    if k = d.name then (k, g.add d) :: rest else (k, g) :: insertDeck rest d

/-- One iteration of the cache-building loop of `_load_decks_internal`:
an invalid entry is skipped, a valid one inserted. -/
def loadStep (m : DeckMap) (e : RawEntry) : DeckMap :=
  match parseEntry e with
  | none => m
  | some d => insertDeck m d

/-- The cache-building loop of `_load_decks_internal` over the `docs` list:
invalid entries are skipped, valid ones inserted in listing order. -/
def loadDecks (entries : List RawEntry) : DeckMap :=
  entries.foldl loadStep []

/-- The decks that survive the loader's validity checks, in listing order. -/
def validDecks (entries : List RawEntry) : List Deck :=
  entries.filterMap parseEntry

/-- The decks the cache holds under a key (empty when the key is absent). -/
def lookupDecks (m : DeckMap) (k : String) : List Deck :=
  match mapFind m k with
  | none => []
  | some g => g.toDecks

/-- Every deck of the cache, in cache iteration order: a flattening of
`self.decks.values()` as `get_cards` and `get_decks` perform it. -/
def allDecks (m : DeckMap) : List Deck :=
  m.flatMap (fun p => p.2.toDecks)

/-- `get_decks(names_only=True)`: the keys of the cache. -/
def get_decks_names (m : DeckMap) : List String := m.map (fun p => p.1)

/-- `get_decks(names_only=False)`: one `(name, id)` pair per cached deck,
built from each deck object itself. -/
def get_decks_full (m : DeckMap) : List (String × String) :=
  m.flatMap (fun p => p.2.toDecks.map (fun d => (d.name, d.id)))

/-- `count_decks`: total number of cached decks across all name groups. -/
def count_decks (m : DeckMap) : Nat :=
  m.foldl
    (fun acc p =>
      match p.2 with
      | .one _ => acc + 1
      | .many ds => acc + ds.length)
    0

/-- The payload of a `MochiAPIError`: message, optional HTTP status code,
optional response payload (modelled as an already-rendered string). -/
structure MochiErr where
  msg : String
  status : Option Nat
  payload : Option String
deriving Repr, DecidableEq

/-- `MochiAPIError.__str__`: message, then the status code when truthy, then
a response snippet truncated to 500 characters when the payload is truthy. -/
def MochiErr.render (e : MochiErr) : String :=
  e.msg
    ++ (match e.status with
        | some c => if c = 0 then "" else " (Status Code: " ++ toString c ++ ")"
        | none => "")
    ++ (match e.payload with
        | some p =>
          if p = "" then ""
          else
            "\nAPI Response Snippet: "
              ++ (if p.length > 500 then p.take 500 ++ "..." else p)
        | none => "")

/-- The Python exception classes the resolution and lookup code can raise.
`typeError` exists in the source only as a safeguard against a cache value
that is neither a `Deck` nor a list, which the typed embedding makes
unrepresentable. -/
inductive PyExc where
  | valueError (msg : String)
  | typeError (msg : String)
  | mochiAPIError (e : MochiErr)
deriving Repr, DecidableEq

/-- The exception class name of a raised exception: what `except ValueError`
versus `except MochiAPIError` can distinguish. -/
def PyExc.excKind : PyExc → String
  | .valueError _ => "ValueError"
  | .typeError _ => "TypeError"
  | .mochiAPIError _ => "MochiAPIError"

/-- The exception class of the error of a failed call, `none` for success. -/
def errKindOf {α : Type} (r : Except PyExc α) : Option String :=
  match r with
  | .ok _ => none
  | .error e => some e.excKind

/-- The comma-joined quoted elements of a rendered Python list. -/
def pyListReprBody : List String → String
  | [] => ""
  | [x] => "'" ++ x ++ "'"
  | x :: xs => "'" ++ x ++ "', " ++ pyListReprBody xs

/-- Python's `repr` of a list of strings, as f-strings render `{deck_ids}`. -/
def pyListRepr (xs : List String) : String :=
  "[" ++ pyListReprBody xs ++ "]"

/-- `get_deck`'s message for a name that is not a cache key. -/
def getDeckNotFoundMsg (name : String) (names : List String) : String :=
  "No deck found with name '" ++ name ++ "' in local cache. Available names: "
    ++ pyListRepr names ++ ". Try client.refresh_decks()?"

/-- `get_deck`'s message for a name shared by several decks. -/
def getDeckMultipleMsg (name : String) (ids : List String) : String :=
  "Multiple decks found with name '" ++ name ++ "'. IDs: " ++ pyListRepr ids
    ++ ". Cannot uniquely identify by name. Access via get_decks(names_only=False) "
    ++ "and filter by ID, or use a unique name."

/-- `get_deck(name)`: single deck for an unambiguous cached name; raises
`ValueError` when the name is absent or held by several decks. -/
def get_deck (m : DeckMap) (name : String) : Except PyExc Deck :=
  match mapFind m name with
  | none => .error (.valueError (getDeckNotFoundMsg name (get_decks_names m)))
  | some (.many ds) =>
    .error (.valueError (getDeckMultipleMsg name (ds.map Deck.id)))
  | some (.one d) => .ok d

/-- How `get_cards` resolved its input to a deck id. -/
inductive ResolvedBy where
  | byName
  | byId
deriving Repr, DecidableEq

/-- `get_cards`'s message for an input naming several decks. -/
def ambiguityMsg (input : String) (ids : List String) : String :=
  "Input '" ++ input ++ "' matches multiple decks by name. IDs: "
    ++ pyListRepr ids ++ ". Use a specific ID."

/-- `get_cards`'s message when neither a name nor an id matches. -/
def notFoundMsg (input : String) (nNames nIds : Nat) : String :=
  "No deck found with name or ID '" ++ input ++ "' in cache. Checked "
    ++ toString nNames ++ " names, " ++ toString nIds
    ++ " IDs. Try client.refresh_decks()?"

/-- The resolution steps of `get_cards` (source steps 1-3): name lookup
first, an ambiguous name fails at once, then an exact scan over every
cached deck's id, then the not-found failure reporting how many names and
ids were checked. -/
def get_cards_resolve (m : DeckMap) (s : String) :
    Except PyExc (String × ResolvedBy) :=
  match mapFind m s with
  | some (.many ds) => .error (.valueError (ambiguityMsg s (ds.map Deck.id)))
  | some (.one d) => .ok (d.id, .byName)
  | none =>
    match (allDecks m).find? (fun d => d.id = s) with
    | some d => .ok (d.id, .byId)
    | none =>
      .error (.valueError
        (notFoundMsg s (get_decks_names m).length (get_decks_full m).length))

/-- A deck-listing response, after JSON decoding: an object with a `docs`
field (itself a list or not), a bare list (tolerated with a warning), or
any other shape (rejected). -/
inductive ListingResponse where
  | docsList (entries : List RawEntry)
  | docsNonList
  | bareList (entries : List RawEntry)
  | malformed
deriving Repr, DecidableEq

/-- `_load_decks_internal`: wraps a transport failure, rejects unrecognized
response shapes, and builds the cache from the `docs` list.  The fixed
texts stand for messages that interpolate Python type names and reprs. -/
def load_decks_internal (resp : Except MochiErr ListingResponse) :
    Except MochiErr DeckMap :=
  match resp with
  | .error e =>
    .error ⟨"Failed to load decks during initialization: " ++ e.render,
            e.status, e.payload⟩
  | .ok (.docsList entries) => .ok (loadDecks entries)
  | .ok (.bareList entries) => .ok (loadDecks entries)
  | .ok .docsNonList =>
    .error ⟨"Expected 'docs' field to contain a list of decks", none, none⟩
  | .ok .malformed =>
    .error ⟨"Unexpected format when listing decks: Expected dict with 'docs'",
            none, none⟩

/-- `refresh_decks`: reload and assign `self.decks`.  The cache after the
call is returned together with the raised exception, if any; when the
reload fails the assignment never happens and the old cache stands. -/
def refresh_decks (cache : DeckMap) (resp : Except MochiErr ListingResponse) :
    DeckMap × Option MochiErr :=
  match load_decks_internal resp with
  | .ok m => (m, none)
  | .error e => (cache, some e)

/-- A deck-creation response after JSON decoding: a JSON object with the
usual deck fields, or not an object at all. -/
inductive CreateResp where
  | notDict
  | dict (d : RawDeck)
deriving Repr, DecidableEq

/-- `create_deck`'s rewrapping of any `MochiAPIError` from its body. -/
def wrapCreateErr (name : String) (e : MochiErr) : MochiErr :=
  ⟨"Failed to create deck '" ++ name ++ "': " ++ e.render, e.status, e.payload⟩

/-- `create_deck(name, parent_id)`: POST, validate the creation response,
refresh the cache, then return the deck looked up from the refreshed cache
by the created name — falling back, when that lookup raises `ValueError`,
to a deck built from the raw creation response.  Inputs: the creation
response and the listing response of the refresh; output: the cache after
the call and the result.  (`get_deck` in this embedding only raises
`ValueError`, so its failure is always the caught case.) -/
def create_deck (name : String) (createResp : Except MochiErr CreateResp)
    (refreshResp : Except MochiErr ListingResponse) (cache : DeckMap) :
    DeckMap × Except MochiErr Deck :=
  match createResp with
  | .error e => (cache, .error (wrapCreateErr name e))
  | .ok .notDict =>
    (cache, .error (wrapCreateErr name
      ⟨"Expected dictionary for created deck", none, none⟩))
  | .ok (.dict d) =>
    match parseRawDeck d with
    | none =>
      (cache, .error (wrapCreateErr name
        ⟨"Created deck response missing 'id' or 'name'", none, none⟩))
    | some (deckId, deckName, deckParent) =>
      match load_decks_internal refreshResp with
      | .error e => (cache, .error (wrapCreateErr name e))
      | .ok m =>
        match get_deck m deckName with
        | .ok dk => (m, .ok dk)
        | .error _ => (m, .ok ⟨deckId, deckName, deckParent⟩)

/-- `delete_deck`'s rewrapping of a `MochiAPIError`: a 404 becomes a
specific not-found message naming the id and keeping the status; anything
else keeps its status under a generic operation message. -/
def wrapDeleteDeckErr (deckId : String) (e : MochiErr) : MochiErr :=
  if e.status = some 404 then
    ⟨"Failed to delete deck: No deck found with ID '" ++ deckId
      ++ "' (Error 404)", e.status, e.payload⟩
  else
    ⟨"Failed to delete deck ID '" ++ deckId ++ "': " ++ e.render,
      e.status, e.payload⟩

/-- `delete_deck(deck_id)`: DELETE, then refresh the cache on success; any
`MochiAPIError` of the body (delete call or refresh) is rewrapped with the
404 special case.  Returns the cache after the call and the outcome. -/
def delete_deck (cache : DeckMap) (deckId : String)
    (deleteResp : Except MochiErr Unit)
    (refreshResp : Except MochiErr ListingResponse) :
    DeckMap × Except MochiErr Unit :=
  match deleteResp with
  | .error e => (cache, .error (wrapDeleteDeckErr deckId e))
  | .ok _ =>
    match load_decks_internal refreshResp with
    | .ok m => (m, .ok ())
    | .error e => (cache, .error (wrapDeleteDeckErr deckId e))

/-- `Deck.delete_card`'s rewrapping of a `MochiAPIError`, with the same
404 special case. -/
def wrapDeleteCardErr (cardId : String) (e : MochiErr) : MochiErr :=
  if e.status = some 404 then
    ⟨"Failed to delete card: No card found with ID '" ++ cardId
      ++ "' (Error 404)", e.status, e.payload⟩
  else
    ⟨"Failed to delete card ID '" ++ cardId ++ "': " ++ e.render,
      e.status, e.payload⟩

/-- `Deck.delete_card(card_id)`: DELETE by card id; no cache interaction. -/
def delete_card (cardId : String) (resp : Except MochiErr Unit) :
    Except MochiErr Unit :=
  match resp with
  | .ok _ => .ok ()
  | .error e => .error (wrapDeleteCardErr cardId e)

/-- The separator line between the two fields of a card's raw content,
`"\n---\n"`, as a character list. -/
def sepChars : List Char := ('\n' :: '-' :: '-' :: '-' :: '\n' :: [])

/-- Whether `p` is an initial segment of `cs` (character-list version of a
prefix test, used to locate the separator). -/
def leadsWith : List Char → List Char → Bool
  | [], _ => true
  | _ :: _, [] => false
  | a :: atl, b :: btl => a = b && leadsWith atl btl

/-- `content.split(sep, 1)` for a non-empty `sep`: the parts around the
first occurrence of `sep`, or `none` when `sep` does not occur. -/
def split1 (sep : List Char) : List Char → Option (List Char × List Char)
  | [] => none
  | c :: cs =>
    if leadsWith sep (c :: cs) then some ([], (c :: cs).drop sep.length)
    else
      match split1 sep cs with
      | some (pre, post) => some (c :: pre, post)
      | none => none

/-- Python's `str.strip()` on a character list: whitespace dropped from
both ends. -/
def stripChars (cs : List Char) : List Char :=
  ((cs.dropWhile Char.isWhitespace).reverse.dropWhile Char.isWhitespace).reverse

/-- Python's `str.strip()`. -/
def pyStrip (s : String) : String := String.mk (stripChars s.data)

/-- The condensing of one card's raw content (`get_cards`, condensed
branch): the part before the first `"\n---\n"` stripped, and the part after
it stripped (the whole content stripped and an empty back when the
separator is absent). -/
def condense (content : String) : String × String :=
  match split1 sepChars content.data with
  | some (pre, post) => (pyStrip (String.mk pre), pyStrip (String.mk post))
  | none => (pyStrip content, "")

/-- A card record as read from an item-listing response: the source only
reads `content`, with `card_data.get('content', '')` defaulting to empty. -/
structure Card where
  content : Option String
deriving Repr, DecidableEq

/-- The condensed `{front, back}` projection of one raw card record. -/
def condenseCard (c : Card) : String × String :=
  condense (c.content.getD "")

/-- The condensed listing: the projection applied to every raw card, in
order (`get_cards` with `condensed=True`, and `Deck.get_cards`). -/
def condenseList (cards : List Card) : List (String × String) :=
  cards.map condenseCard

/-- `Deck.add_card` / `Deck.update_card` content formatting:
`f"{front}\n---\n{back}"`. -/
def joinContent (front back : String) : String :=
  front ++ "\n---\n" ++ back

/-- `cs` splits as `pre`, the separator, `post`. -/
abbrev SepAt (cs pre post : List Char) : Prop :=
  cs = pre ++ sepChars ++ post

/-- `pre`/`post` are the parts around the FIRST separator occurrence. -/
abbrev FirstSepAt (cs pre post : List Char) : Prop :=
  SepAt cs pre post ∧
    ∀ pre' post', SepAt cs pre' post' → pre.length ≤ pre'.length

/-- The separator does not occur in `cs`. -/
abbrev NoSep (cs : List Char) : Prop :=
  ∀ pre post, ¬ SepAt cs pre post

/-- The shape invariant of the cache: every list-valued entry holds at
least two decks (the loader only creates lists at a collision). -/
abbrev ManyShape (m : DeckMap) : Prop :=
  ∀ p ∈ m, ∀ ds, p.2 = DeckGroup.many ds → 2 ≤ ds.length

/-- The key invariant of the cache: every deck of an entry carries the
entry's key as its name. -/
abbrev NamedKeys (m : DeckMap) : Prop :=
  ∀ p ∈ m, ∀ d ∈ p.2.toDecks, d.name = p.1

/-- Test fixture: a listing with two decks named "A" and one named "B". -/
def wEntries : List RawEntry :=
  [RawEntry.dict ⟨some "id1", none, some "A", none, none, none⟩,
   RawEntry.dict ⟨some "id2", none, some "A", none, none, none⟩,
   RawEntry.dict ⟨some "id3", none, some "B", some "id1", none, none⟩]

/-- Test fixture: the decks of `wEntries`. -/
def wDeckA1 : Deck := ⟨"id1", "A", none⟩

def wDeckA2 : Deck := ⟨"id2", "A", none⟩

def wDeckB : Deck := ⟨"id3", "B", some "id1"⟩

/-- Test fixture: the cache loaded from `wEntries` (name "A" collides). -/
def wMap : DeckMap := loadDecks wEntries

/-- Test fixture: a creation response whose name "A" collides after the
refresh described by `wEntriesC7`. -/
def wRawC7 : RawDeck := ⟨some "idNew", none, some "A", none, none, none⟩

def wEntriesC7 : List RawEntry :=
  [RawEntry.dict ⟨some "id1", none, some "A", none, none, none⟩,
   RawEntry.dict ⟨some "idNew", none, some "A", none, none, none⟩]

/-- Test fixture: a listing entry with an empty (but present) name. -/
def wRawEmptyName : RawDeck := ⟨some "idE", none, some "", none, none, none⟩

/-- Test fixture: a 404 transport failure. -/
def wErr404 : MochiErr := ⟨"HTTP Error calling DELETE url", some 404, none⟩

theorem DeckGroup.toDecks_add (g : DeckGroup) (d : Deck) :
    (g.add d).toDecks = g.toDecks ++ [d] := by
  cases g <;> rfl

theorem lookupDecks_insertDeck (m : DeckMap) (d : Deck) (k : String) :
    lookupDecks (insertDeck m d) k =
      if k = d.name then lookupDecks m k ++ [d] else lookupDecks m k := by
  induction m with
  | nil =>
    by_cases h : k = d.name
    · subst h
      simp [insertDeck, lookupDecks, mapFind, DeckGroup.toDecks]
    · have h' : ¬ d.name = k := fun e => h e.symm
      simp [insertDeck, lookupDecks, mapFind, h, h']
  | cons p rest ih =>
    obtain ⟨k', g⟩ := p
    simp only [insertDeck]
    by_cases hk : k' = d.name
    · rw [if_pos hk]
      by_cases hkk : k' = k
      · subst hkk
        simp [lookupDecks, mapFind, hk, DeckGroup.toDecks_add]
      · have h2 : ¬ k = d.name := fun e => hkk (hk.trans e.symm)
        simp [lookupDecks, mapFind, hkk, h2]
    · rw [if_neg hk]
      by_cases hkk : k' = k
      · subst hkk
        simp [lookupDecks, mapFind, hk]
      · simp only [lookupDecks, mapFind, if_neg hkk]
        exact ih

theorem mapFind_mem {m : DeckMap} {k : String} {g : DeckGroup}
    (h : mapFind m k = some g) : (k, g) ∈ m := by
  induction m with
  | nil => simp [mapFind] at h
  | cons p rest ih =>
    obtain ⟨k', g'⟩ := p
    by_cases hk : k' = k
    · subst hk
      simp [mapFind] at h
      subst h
      exact List.mem_cons_self _ _
    · simp [mapFind, hk] at h
      exact List.mem_cons_of_mem _ (ih h)

theorem insertDeck_manyShape {m : DeckMap} (d : Deck) (h : ManyShape m) :
    ManyShape (insertDeck m d) := by
  induction m with
  | nil =>
    intro p hp ds hds
    simp [insertDeck] at hp
    subst hp
    simp at hds
  | cons q rest ih =>
    obtain ⟨k, g⟩ := q
    have hrest : ManyShape rest := fun p hp => h p (List.mem_cons_of_mem _ hp)
    by_cases hk : k = d.name
    · intro p hp ds hds
      simp only [insertDeck, if_pos hk, List.mem_cons] at hp
      rcases hp with hp | hp
      · subst hp
        simp only at hds
        cases g with
        | one e =>
          simp only [DeckGroup.add, DeckGroup.many.injEq] at hds
          subst hds
          simp
        | many es =>
          simp only [DeckGroup.add, DeckGroup.many.injEq] at hds
          have h2 := h (k, DeckGroup.many es) (List.mem_cons_self _ _) es rfl
          subst hds
          simp only [List.length_append, List.length_singleton]
          omega
      · exact hrest p hp ds hds
    · intro p hp ds hds
      simp only [insertDeck, if_neg hk, List.mem_cons] at hp
      rcases hp with hp | hp
      · subst hp
        exact h (k, g) (List.mem_cons_self _ _) ds hds
      · exact ih hrest p hp ds hds

theorem insertDeck_namedKeys {m : DeckMap} (d : Deck) (h : NamedKeys m) :
    NamedKeys (insertDeck m d) := by
  induction m with
  | nil =>
    intro p hp d' hd'
    simp [insertDeck] at hp
    subst hp
    simp [DeckGroup.toDecks] at hd'
    simp [hd']
  | cons q rest ih =>
    obtain ⟨k, g⟩ := q
    have hrest : NamedKeys rest := fun p hp => h p (List.mem_cons_of_mem _ hp)
    by_cases hk : k = d.name
    · intro p hp d' hd'
      simp only [insertDeck, if_pos hk, List.mem_cons] at hp
      rcases hp with hp | hp
      · subst hp
        simp only [DeckGroup.toDecks_add, List.mem_append,
          List.mem_singleton] at hd'
        rcases hd' with hd' | hd'
        · exact h (k, g) (List.mem_cons_self _ _) d' hd'
        · subst hd'
          exact hk.symm
      · exact hrest p hp d' hd'
    · intro p hp d' hd'
      simp only [insertDeck, if_neg hk, List.mem_cons] at hp
      rcases hp with hp | hp
      · subst hp
        exact h (k, g) (List.mem_cons_self _ _) d' hd'
      · exact ih hrest p hp d' hd'

theorem foldl_loadStep_lookup (es : List RawEntry) :
    ∀ (m : DeckMap) (k : String),
      lookupDecks (es.foldl loadStep m) k =
        lookupDecks m k ++ (validDecks es).filter (fun d => d.name = k) := by
  induction es with
  | nil => intro m k; simp [validDecks]
  | cons e es ih =>
    intro m k
    rw [List.foldl_cons]
    rw [ih (loadStep m e) k]
    cases hp : parseEntry e with
    | none => simp [loadStep, hp, validDecks, List.filterMap_cons, hp]
    | some d =>
      simp only [loadStep, hp]
      rw [lookupDecks_insertDeck]
      by_cases hk : k = d.name
      · simp [validDecks, List.filterMap_cons, hp, hk, List.filter_cons]
      · have : ¬ d.name = k := fun h => hk h.symm
        simp [validDecks, List.filterMap_cons, hp, List.filter_cons, this, hk]

theorem loadDecks_lookup (es : List RawEntry) (k : String) :
    lookupDecks (loadDecks es) k =
      (validDecks es).filter (fun d => d.name = k) := by
  have := foldl_loadStep_lookup es [] k
  simpa [loadDecks, lookupDecks, mapFind] using this

theorem foldl_loadStep_manyShape (es : List RawEntry) :
    ∀ (m : DeckMap), ManyShape m → ManyShape (es.foldl loadStep m) := by
  induction es with
  | nil => intro m h; simpa using h
  | cons e es ih =>
    intro m h
    rw [List.foldl_cons]
    apply ih
    cases hp : parseEntry e with
    | none => simpa [loadStep, hp] using h
    | some d =>
      simp only [loadStep, hp]
      exact insertDeck_manyShape d h

theorem foldl_loadStep_namedKeys (es : List RawEntry) :
    ∀ (m : DeckMap), NamedKeys m → NamedKeys (es.foldl loadStep m) := by
  induction es with
  | nil => intro m h; simpa using h
  | cons e es ih =>
    intro m h
    rw [List.foldl_cons]
    apply ih
    cases hp : parseEntry e with
    | none => simpa [loadStep, hp] using h
    | some d =>
      simp only [loadStep, hp]
      exact insertDeck_namedKeys d h

theorem loadDecks_manyShape (es : List RawEntry) : ManyShape (loadDecks es) :=
  foldl_loadStep_manyShape es [] (by intro p hp; simp at hp)

theorem loadDecks_namedKeys (es : List RawEntry) : NamedKeys (loadDecks es) :=
  foldl_loadStep_namedKeys es [] (by intro p hp; simp at hp)

theorem parseEntry_id_ne_empty {e : RawEntry} {d : Deck}
    (h : parseEntry e = some d) : d.id ≠ "" := by
  cases e with
  | notDict => simp [parseEntry] at h
  | dict r =>
    simp only [parseEntry] at h
    cases hp : parseRawDeck r with
    | none => rw [hp] at h; simp at h
    | some t =>
      rw [hp] at h
      obtain ⟨i, n, p⟩ := t
      simp at h
      simp only [parseRawDeck] at hp
      cases hi : r.idOf with
      | none => rw [hi] at hp; simp at hp
      | some i' =>
        cases hn : r.name with
        | none => rw [hi, hn] at hp; simp at hp
        | some n' =>
          rw [hi, hn] at hp
          by_cases hie : i' = ""
          · simp [hie] at hp
          · simp [hie] at hp
            rw [← h]
            simp [← hp.1]
            exact hie

theorem leadsWith_iff (p cs : List Char) :
    leadsWith p cs = true ↔ ∃ t, cs = p ++ t := by
  induction p generalizing cs with
  | nil => simp [leadsWith]
  | cons a atl ih =>
    cases cs with
    | nil => simp [leadsWith]
    | cons b btl =>
      simp only [leadsWith, Bool.and_eq_true, decide_eq_true_eq,
        List.cons_append]
      constructor
      · rintro ⟨rfl, h⟩
        obtain ⟨t, rfl⟩ := (ih btl).1 h
        exact ⟨t, rfl⟩
      · rintro ⟨t, ht⟩
        simp only [List.cons.injEq] at ht
        obtain ⟨rfl, ht⟩ := ht
        exact ⟨rfl, (ih btl).2 ⟨t, ht⟩⟩

theorem split1_sepAt {sep : List Char} :
    ∀ {cs pre post : List Char}, split1 sep cs = some (pre, post) →
      cs = pre ++ sep ++ post := by
  intro cs
  induction cs with
  | nil => intro pre post h; simp [split1] at h
  | cons c cs ih =>
    intro pre post h
    simp only [split1] at h
    by_cases hl : leadsWith sep (c :: cs) = true
    · rw [if_pos hl] at h
      obtain ⟨t, ht⟩ := (leadsWith_iff sep (c :: cs)).1 hl
      simp only [Option.some.injEq, Prod.mk.injEq] at h
      obtain ⟨h1, h2⟩ := h
      subst h1
      subst h2
      rw [ht, List.drop_left]
      simp
    · rw [if_neg hl] at h
      cases hs : split1 sep cs with
      | none => rw [hs] at h; simp at h
      | some pq =>
        obtain ⟨p, q⟩ := pq
        rw [hs] at h
        simp only [Option.some.injEq, Prod.mk.injEq] at h
        obtain ⟨h1, h2⟩ := h
        subst h1
        subst h2
        have := ih hs
        simp [this]

theorem split1_min {sep : List Char} :
    ∀ {cs pre post : List Char}, split1 sep cs = some (pre, post) →
      ∀ pre' post', cs = pre' ++ sep ++ post' → pre.length ≤ pre'.length := by
  intro cs
  induction cs with
  | nil => intro pre post h; simp [split1] at h
  | cons c cs ih =>
    intro pre post h pre' post' hocc
    simp only [split1] at h
    by_cases hl : leadsWith sep (c :: cs) = true
    · rw [if_pos hl] at h
      simp only [Option.some.injEq, Prod.mk.injEq] at h
      obtain ⟨h1, _⟩ := h
      subst h1
      simp
    · rw [if_neg hl] at h
      cases hs : split1 sep cs with
      | none => rw [hs] at h; simp at h
      | some pq =>
        obtain ⟨p, q⟩ := pq
        rw [hs] at h
        simp only [Option.some.injEq, Prod.mk.injEq] at h
        obtain ⟨h1, h2⟩ := h
        subst h1
        cases pre' with
        | nil =>
          exfalso
          apply hl
          apply (leadsWith_iff sep (c :: cs)).2
          exact ⟨post', by simpa using hocc⟩
        | cons c' pre'' =>
          simp only [List.cons_append, List.cons.injEq] at hocc
          have := ih hs pre'' post' hocc.2
          simp only [List.length_cons]
          omega

theorem split1_none {sep : List Char} (hsep : sep ≠ []) :
    ∀ {cs : List Char}, split1 sep cs = none →
      ∀ pre post, cs ≠ pre ++ sep ++ post := by
  intro cs
  induction cs with
  | nil =>
    intro _ pre post heq
    have : pre = [] ∧ sep = [] ∧ post = [] := by
      simpa using heq.symm
    exact hsep this.2.1
  | cons c cs ih =>
    intro h pre post heq
    simp only [split1] at h
    by_cases hl : leadsWith sep (c :: cs) = true
    · rw [if_pos hl] at h
      simp at h
    · rw [if_neg hl] at h
      cases hs : split1 sep cs with
      | some pq => obtain ⟨p, q⟩ := pq; rw [hs] at h; simp at h
      | none =>
        cases pre with
        | nil =>
          apply hl
          apply (leadsWith_iff sep (c :: cs)).2
          exact ⟨post, by simpa using heq⟩
        | cons c' pre' =>
          simp only [List.cons_append, List.cons.injEq] at heq
          exact ih hs pre' post heq.2

theorem sepChars_ne_nil : sepChars ≠ [] := by
  simp [sepChars]

theorem condense_of_firstSepAt {c : String} {pre post : List Char}
    (h : FirstSepAt c.data pre post) :
    condense c = (pyStrip (String.mk pre), pyStrip (String.mk post)) := by
  obtain ⟨hocc, hmin⟩ := h
  unfold condense
  cases hs : split1 sepChars c.data with
  | none => exact absurd hocc (split1_none sepChars_ne_nil hs pre post)
  | some pq =>
    obtain ⟨p, q⟩ := pq
    have hpq : c.data = p ++ sepChars ++ q := split1_sepAt hs
    have h1 : p.length ≤ pre.length := split1_min hs pre post hocc
    have h2 : pre.length ≤ p.length := hmin p q hpq
    have hlen : p.length = pre.length := le_antisymm h1 h2
    have heq : p ++ (sepChars ++ q) = pre ++ (sepChars ++ post) := by
      rw [← List.append_assoc, ← List.append_assoc, ← hpq, ← hocc]
    obtain ⟨hp, hq⟩ := List.append_inj heq hlen
    have hq' : q = post := List.append_cancel_left hq
    subst hp
    subst hq'
    rfl

theorem condense_of_noSep {c : String} (h : NoSep c.data) :
    condense c = (pyStrip c, "") := by
  unfold condense
  cases hs : split1 sepChars c.data with
  | none => rfl
  | some pq =>
    obtain ⟨p, q⟩ := pq
    exact absurd (split1_sepAt hs) (h p q)

theorem joinContent_data (f b : String) :
    (joinContent f b).data = f.data ++ sepChars ++ b.data := by
  simp only [joinContent, String.data_append]
  simp [sepChars]

theorem condense_joinContent {f b : String}
    (h : FirstSepAt (joinContent f b).data f.data b.data) :
    condense (joinContent f b) = (pyStrip f, pyStrip b) :=
  condense_of_firstSepAt h

theorem loadDecks_skip {e : RawEntry} (hp : parseEntry e = none)
    (l1 l2 : List RawEntry) :
    loadDecks (l1 ++ e :: l2) = loadDecks (l1 ++ l2) := by
  unfold loadDecks
  rw [List.foldl_append, List.foldl_append, List.foldl_cons]
  congr 1
  simp [loadStep, hp]

/-- C1: the resolution order of the card-listing operation `get_cards`: a
name matching a single cached deck resolves to that deck's id (by name); a
name matching several decks fails at once with the ambiguity `ValueError`
listing the colliding ids, never reaching the id search; otherwise an
exact scan over every cached deck's id resolves by id; and when nothing
matches, the not-found `ValueError` reports how many names and how many
ids were checked. -/
theorem get_cards_resolution_order (m : DeckMap) (s : String) :
    (∀ d, mapFind m s = some (DeckGroup.one d) →
      get_cards_resolve m s = .ok (d.id, ResolvedBy.byName)) ∧
    (∀ ds, mapFind m s = some (DeckGroup.many ds) →
      get_cards_resolve m s =
        .error (.valueError (ambiguityMsg s (ds.map Deck.id)))) ∧
    (mapFind m s = none → (∃ d ∈ allDecks m, d.id = s) →
      get_cards_resolve m s = .ok (s, ResolvedBy.byId)) ∧
    (mapFind m s = none → (∀ d ∈ allDecks m, d.id ≠ s) →
      get_cards_resolve m s =
        .error (.valueError
          (notFoundMsg s (get_decks_names m).length
            (get_decks_full m).length))) := by
  refine ⟨?_, ?_, ?_, ?_⟩
  · intro d h
    simp [get_cards_resolve, h]
  · intro ds h
    simp [get_cards_resolve, h]
  · intro h hex
    simp only [get_cards_resolve, h]
    obtain ⟨d, hd, hds⟩ := hex
    cases hf : (allDecks m).find? (fun d => d.id = s) with
    | none =>
      rw [List.find?_eq_none] at hf
      exact absurd (by simpa using hds) (hf d hd)
    | some d' =>
      have := List.find?_some hf
      simp only [decide_eq_true_eq] at this
      simp [this]
  · intro h hall
    simp only [get_cards_resolve, h]
    cases hf : (allDecks m).find? (fun d => d.id = s) with
    | none => simp
    | some d' =>
      have h1 := List.find?_some hf
      have h2 := List.mem_of_find?_eq_some hf
      simp only [decide_eq_true_eq] at h1
      exact absurd h1 (hall d' h2)

theorem get_cards_resolution_order_witness :
    get_cards_resolve wMap "A" =
      .error (.valueError (ambiguityMsg "A" ["id1", "id2"])) ∧
    get_cards_resolve wMap "id3" = .ok ("id3", ResolvedBy.byId) := by
  constructor
  · exact (get_cards_resolution_order wMap "A").2.1 [wDeckA1, wDeckA2]
      (by decide)
  · exact (get_cards_resolution_order wMap "id3").2.2.1 (by decide)
      ⟨wDeckB, by decide, by decide⟩

/-- C2: after every successful cache load, every cached deck sits under its
own name as the key; the decks cached under a name are exactly the valid
listing entries bearing that name, in listing order; a name held by one
deck maps to that single deck, a name held by two or more maps to a
non-empty list of all of them, none dropped. -/
theorem cache_invariant_after_load (entries : List RawEntry)
    (resp : Except MochiErr ListingResponse) (m : DeckMap)
    (hresp : resp = .ok (.docsList entries) ∨ resp = .ok (.bareList entries))
    (hload : load_decks_internal resp = .ok m) :
    m = loadDecks entries ∧ NamedKeys m ∧
    (∀ k, lookupDecks m k = (validDecks entries).filter (fun d => d.name = k)) ∧
    (∀ k d, mapFind m k = some (DeckGroup.one d) →
      (validDecks entries).filter (fun d' => d'.name = k) = [d]) ∧
    (∀ k ds, mapFind m k = some (DeckGroup.many ds) →
      ds ≠ [] ∧ 2 ≤ ds.length ∧
      ds = (validDecks entries).filter (fun d' => d'.name = k)) := by
  have hm : m = loadDecks entries := by
    rcases hresp with h | h <;> subst h <;>
      simpa [load_decks_internal] using hload.symm
  subst hm
  refine ⟨rfl, loadDecks_namedKeys entries, loadDecks_lookup entries, ?_, ?_⟩
  · intro k d h
    have := loadDecks_lookup entries k
    rw [← this]
    simp [lookupDecks, h, DeckGroup.toDecks]
  · intro k ds h
    have hlen : 2 ≤ ds.length :=
      loadDecks_manyShape entries (k, DeckGroup.many ds) (mapFind_mem h) ds rfl
    have hfil : ds = (validDecks entries).filter (fun d' => d'.name = k) := by
      rw [← loadDecks_lookup entries k]
      simp [lookupDecks, h, DeckGroup.toDecks]
    refine ⟨?_, hlen, hfil⟩
    intro hnil
    rw [hnil] at hlen
    simp at hlen

theorem cache_invariant_after_load_witness :
    ([wDeckA1, wDeckA2] : List Deck) ≠ [] ∧
    2 ≤ ([wDeckA1, wDeckA2] : List Deck).length ∧
    ([wDeckA1, wDeckA2] : List Deck) =
      (validDecks wEntries).filter (fun d' => d'.name = "A") :=
  (cache_invariant_after_load wEntries (.ok (.docsList wEntries))
    (loadDecks wEntries) (Or.inl rfl) rfl).2.2.2.2 "A" [wDeckA1, wDeckA2]
    (by decide)

set_option maxRecDepth 16384 in
/-- C3 fails on the code: the ambiguity failure and the not-found failure
of `get_deck` are raised as the SAME exception kind (`ValueError`), and the
colliding ids appear only rendered inside the message string, not as
structured error data.  At the cache loaded from `wEntries`, looking up the
ambiguous name "A" and the absent name "Zed" both produce a `ValueError`. -/
theorem ambiguity_error_same_kind_counterexample :
    errKindOf (get_deck wMap "A") = some "ValueError" ∧
    errKindOf (get_deck wMap "Zed") = some "ValueError" ∧
    get_deck wMap "A" =
      .error (.valueError (getDeckMultipleMsg "A" ["id1", "id2"])) ∧
    errKindOf (get_cards_resolve wMap "A") = some "ValueError" := by
  refine ⟨by decide, by decide, by decide, by decide⟩

/-- C3 (amended): a name held by several decks makes `get_deck` and the
resolution of `get_cards` fail with a `ValueError` whose message renders
the colliding ids; an absent name makes `get_deck` fail with a `ValueError`
carrying a not-found message.  Both failures are the same exception kind
and are distinguished only by their message text. -/
theorem ambiguity_error_amended (m : DeckMap) (name : String) :
    (∀ ds, mapFind m name = some (DeckGroup.many ds) →
      get_deck m name =
        .error (.valueError (getDeckMultipleMsg name (ds.map Deck.id))) ∧
      get_cards_resolve m name =
        .error (.valueError (ambiguityMsg name (ds.map Deck.id))) ∧
      errKindOf (get_deck m name) = some "ValueError") ∧
    (mapFind m name = none →
      get_deck m name =
        .error (.valueError (getDeckNotFoundMsg name (get_decks_names m))) ∧
      errKindOf (get_deck m name) = some "ValueError") := by
  constructor
  · intro ds h
    refine ⟨by simp [get_deck, h], by simp [get_cards_resolve, h], ?_⟩
    simp [get_deck, h, errKindOf, PyExc.excKind]
  · intro h
    refine ⟨by simp [get_deck, h], ?_⟩
    simp [get_deck, h, errKindOf, PyExc.excKind]

theorem ambiguity_error_amended_witness :
    get_deck wMap "A" =
      .error (.valueError (getDeckMultipleMsg "A"
        ([wDeckA1, wDeckA2].map Deck.id))) ∧
    get_cards_resolve wMap "A" =
      .error (.valueError (ambiguityMsg "A" ([wDeckA1, wDeckA2].map Deck.id))) ∧
    errKindOf (get_deck wMap "A") = some "ValueError" :=
  (ambiguity_error_amended wMap "A").1 [wDeckA1, wDeckA2] (by decide)

/-- C4: the condensed projection of a raw content string returns, as
`front`, the part before the first separator occurrence trimmed of
surrounding whitespace (the whole content trimmed when the separator is
absent) and, as `back`, the part after the first separator occurrence
trimmed (empty when absent); in particular the two-sided example and the
separator-free example of the specification. -/
theorem condensed_projection_split (c : String) (pre post : List Char) :
    (FirstSepAt c.data pre post →
      condense c = (pyStrip (String.mk pre), pyStrip (String.mk post))) ∧
    (NoSep c.data → condense c = (pyStrip c, "")) ∧
    condenseList [⟨some "Q1\n---\nA1"⟩] = [("Q1", "A1")] ∧
    condenseList [⟨some "OnlyFront"⟩] = [("OnlyFront", "")] :=
  ⟨fun h => condense_of_firstSepAt h,
   fun h => condense_of_noSep h,
   by decide, by decide⟩

theorem condensed_projection_split_witness :
    condense "Q1\n---\nA1" = (("Q1" : String), ("A1" : String)) := by
  have hsp : split1 sepChars ("Q1\n---\nA1" : String).data =
      some (("Q1" : String).data, ("A1" : String).data) := by decide
  have h : FirstSepAt ("Q1\n---\nA1" : String).data
      ("Q1" : String).data ("A1" : String).data :=
    ⟨by decide, fun pre' post' hs => split1_min hsp pre' post' hs⟩
  rw [(condensed_projection_split "Q1\n---\nA1" ("Q1" : String).data
    ("A1" : String).data).1 h]
  decide

/-- C5: a listing entry with a missing id or a missing name is skipped by
the loader: it parses to no deck, the loaded cache is the one of the
remaining entries, and neither the deck count nor the full listing over
the remaining valid entries changes. -/
theorem malformed_entry_skipped (l1 l2 : List RawEntry) (d : RawDeck)
    (h : d.idOf = none ∨ d.idOf = some "" ∨ d.name = none) :
    parseEntry (.dict d) = none ∧
    loadDecks (l1 ++ RawEntry.dict d :: l2) = loadDecks (l1 ++ l2) ∧
    count_decks (loadDecks (l1 ++ RawEntry.dict d :: l2)) =
      count_decks (loadDecks (l1 ++ l2)) ∧
    get_decks_full (loadDecks (l1 ++ RawEntry.dict d :: l2)) =
      get_decks_full (loadDecks (l1 ++ l2)) := by
  have hp : parseEntry (.dict d) = none := by
    rcases h with h | h | h
    · simp [parseEntry, parseRawDeck, h]
    · cases hn : d.name <;> simp [parseEntry, parseRawDeck, h, hn]
    · cases hi : d.idOf <;> simp [parseEntry, parseRawDeck, h, hi]
  have hload := loadDecks_skip hp l1 l2
  exact ⟨hp, hload, by rw [hload], by rw [hload]⟩

theorem malformed_entry_skipped_witness :
    parseEntry (.dict ⟨none, none, some "C", none, none, none⟩) = none ∧
    loadDecks (wEntries ++
        RawEntry.dict ⟨none, none, some "C", none, none, none⟩ :: []) =
      loadDecks (wEntries ++ []) ∧
    count_decks (loadDecks (wEntries ++
        RawEntry.dict ⟨none, none, some "C", none, none, none⟩ :: [])) =
      count_decks (loadDecks (wEntries ++ [])) ∧
    get_decks_full (loadDecks (wEntries ++
        RawEntry.dict ⟨none, none, some "C", none, none, none⟩ :: [])) =
      get_decks_full (loadDecks (wEntries ++ [])) :=
  malformed_entry_skipped wEntries []
    ⟨none, none, some "C", none, none, none⟩ (Or.inl rfl)

/-- C6: `refresh_decks` replaces the cache as one whole: after the call the
cache is either exactly the newly loaded snapshot (and no error is raised)
or, when the reload fails, exactly the previous cache with the load error
raised; no partial or merged state exists. -/
theorem refresh_replaces_cache_wholesale (cache : DeckMap)
    (resp : Except MochiErr ListingResponse) :
    ((refresh_decks cache resp).2 = none ∧
      load_decks_internal resp = .ok (refresh_decks cache resp).1) ∨
    ((refresh_decks cache resp).1 = cache ∧
      ∃ e, (refresh_decks cache resp).2 = some e ∧
        load_decks_internal resp = .error e) := by
  cases h : load_decks_internal resp with
  | ok m => left; simp [refresh_decks, h]
  | error e => right; simp [refresh_decks, h]

/-- C7: when the creation response is a valid deck record and the refresh
succeeds, `create_deck` always returns a deck (never an error); and when
the post-refresh lookup of the created name fails, the returned deck is
the one built from the raw creation response. -/
theorem create_deck_fallback (name : String) (d : RawDeck)
    (refreshResp : Except MochiErr ListingResponse) (cache : DeckMap)
    (i n : String) (p : Option String) (m : DeckMap)
    (hparse : parseRawDeck d = some (i, n, p))
    (hrefresh : load_decks_internal refreshResp = .ok m) :
    (∃ dk, (create_deck name (.ok (.dict d)) refreshResp cache).2 = .ok dk) ∧
    (∀ e, get_deck m n = .error e →
      create_deck name (.ok (.dict d)) refreshResp cache =
        (m, .ok ⟨i, n, p⟩)) := by
  simp only [create_deck, hparse, hrefresh]
  cases hg : get_deck m n with
  | ok dk =>
    refine ⟨⟨dk, rfl⟩, ?_⟩
    intro e he
    simp at he
  | error e' =>
    exact ⟨⟨⟨i, n, p⟩, rfl⟩, fun e _ => rfl⟩

set_option maxRecDepth 16384 in
theorem create_deck_fallback_witness :
    create_deck "A" (.ok (.dict wRawC7)) (.ok (.docsList wEntriesC7)) [] =
      (loadDecks wEntriesC7, .ok ⟨"idNew", "A", none⟩) :=
  (create_deck_fallback "A" wRawC7 (.ok (.docsList wEntriesC7)) []
      "idNew" "A" none (loadDecks wEntriesC7) (by decide) rfl).2
    (.valueError (getDeckMultipleMsg "A" ["id1", "idNew"])) (by decide)

/-- C8 fails as stated, on its join-then-split direction: for the pair
front = "a\n---", back = "b", the joined content "a\n---\n---\nb" has its
first separator occurrence inside the original front, so the condensed
split returns ("a", "---\nb"), not the original front and back (which are
unchanged by stripping). -/
theorem split_join_roundtrip_counterexample :
    SepAt (joinContent "a\n---" "b").data
      ("a\n---" : String).data ("b" : String).data ∧
    condense (joinContent "a\n---" "b") ≠
      (pyStrip "a\n---", pyStrip "b") ∧
    condense (joinContent "a\n---" "b") = ("a", "---\nb") := by
  refine ⟨by decide, by decide, by decide⟩

/-- C8 (amended): for every content whose data splits at a first separator
occurrence, rejoining the condensed parts with the separator reproduces
the content with whitespace stripped from both ends of each part; and
joining a front/back pair and re-splitting returns the stripped originals
PROVIDED the first separator occurrence of the joined string is the
inserted one (at position length of front) — without that proviso the
round-trip can split inside the original front. -/
theorem split_join_roundtrip (c : String) (pre post : List Char)
    (f b : String) :
    (FirstSepAt c.data pre post →
      joinContent (condense c).1 (condense c).2 =
        pyStrip (String.mk pre) ++ "\n---\n" ++ pyStrip (String.mk post)) ∧
    (FirstSepAt (joinContent f b).data f.data b.data →
      condense (joinContent f b) = (pyStrip f, pyStrip b)) := by
  constructor
  · intro h
    rw [condense_of_firstSepAt h]
    rfl
  · exact fun h => condense_joinContent h

theorem split_join_roundtrip_witness :
    condense (joinContent "Q1" "A1") = (pyStrip "Q1", pyStrip "A1") := by
  have hsp : split1 sepChars (joinContent "Q1" "A1").data =
      some (("Q1" : String).data, ("A1" : String).data) := by decide
  have h : FirstSepAt (joinContent "Q1" "A1").data
      ("Q1" : String).data ("A1" : String).data :=
    ⟨by decide, fun pre' post' hs => split1_min hsp pre' post' hs⟩
  exact (split_join_roundtrip (joinContent "Q1" "A1") ("Q1" : String).data
    ("A1" : String).data "Q1" "A1").2 h

/-- C9: a 404 on a delete operation (deck or card) is rewrapped into an
error that keeps the 404 status code and carries a specific not-found
message naming the missing id, while any other failure of the same
operations is rewrapped with a generic operation message that keeps the
original status (a network-level failure has no status code at all). -/
theorem delete_404_distinguished (cardId deckId : String) (cache : DeckMap)
    (refreshResp : Except MochiErr ListingResponse) (e : MochiErr) :
    (e.status = some 404 →
      delete_card cardId (.error e) =
        .error ⟨"Failed to delete card: No card found with ID '" ++ cardId
          ++ "' (Error 404)", some 404, e.payload⟩ ∧
      delete_deck cache deckId (.error e) refreshResp =
        (cache, .error ⟨"Failed to delete deck: No deck found with ID '"
          ++ deckId ++ "' (Error 404)", some 404, e.payload⟩)) ∧
    (e.status ≠ some 404 →
      delete_card cardId (.error e) =
        .error ⟨"Failed to delete card ID '" ++ cardId ++ "': " ++ e.render,
          e.status, e.payload⟩ ∧
      delete_deck cache deckId (.error e) refreshResp =
        (cache, .error ⟨"Failed to delete deck ID '" ++ deckId ++ "': "
          ++ e.render, e.status, e.payload⟩)) := by
  constructor
  · intro h
    constructor
    · simp [delete_card, wrapDeleteCardErr, h]
    · simp [delete_deck, wrapDeleteDeckErr, h]
  · intro h
    constructor
    · simp [delete_card, wrapDeleteCardErr, h]
    · simp [delete_deck, wrapDeleteDeckErr, h]

theorem delete_404_distinguished_witness :
    delete_card "c9" (.error wErr404) =
      .error ⟨"Failed to delete card: No card found with ID 'c9'"
        ++ " (Error 404)", some 404, none⟩ ∧
    delete_deck [] "d9" (.error wErr404) (.ok (.docsList [])) =
      ([], .error ⟨"Failed to delete deck: No deck found with ID 'd9'"
        ++ " (Error 404)", some 404, none⟩) := by
  have h := (delete_404_distinguished "c9" "d9" [] (.ok (.docsList []))
    wErr404).1 rfl
  simpa using h

/-- C10: a listing entry whose name is present but empty is accepted and
cached under the key "" (conjunct one); an entry whose id resolves to the
empty string is skipped exactly like one with a missing id (conjunct two,
same conclusion as for a missing id); and no cached deck ever has an empty
id (conjunct three). -/
theorem empty_name_cached_empty_id_skipped (d : RawDeck) (i : String)
    (l1 l2 es : List RawEntry) (k : String) (dk : Deck) :
    (d.name = some "" → d.idOf = some i → i ≠ "" →
      parseEntry (.dict d) = some ⟨i, "", d.parentOf⟩ ∧
      (⟨i, "", d.parentOf⟩ : Deck) ∈
        lookupDecks (loadDecks (l1 ++ RawEntry.dict d :: l2)) "") ∧
    (d.idOf = some "" →
      parseEntry (.dict d) = none ∧
      loadDecks (l1 ++ RawEntry.dict d :: l2) = loadDecks (l1 ++ l2)) ∧
    (dk ∈ lookupDecks (loadDecks es) k → dk.id ≠ "") := by
  refine ⟨?_, ?_, ?_⟩
  · intro hn hi hne
    have hp : parseEntry (.dict d) = some ⟨i, "", d.parentOf⟩ := by
      simp [parseEntry, parseRawDeck, hn, hi, hne]
    refine ⟨hp, ?_⟩
    rw [loadDecks_lookup]
    rw [List.mem_filter]
    constructor
    · simp [validDecks, List.filterMap_append, List.filterMap_cons, hp]
    · simp
  · intro hi
    have hp : parseEntry (.dict d) = none := by
      cases hn : d.name <;> simp [parseEntry, parseRawDeck, hi, hn]
    exact ⟨hp, loadDecks_skip hp l1 l2⟩
  · intro hmem
    rw [loadDecks_lookup] at hmem
    have hv := (List.mem_filter.1 hmem).1
    obtain ⟨e, _, hpe⟩ := List.mem_filterMap.1 hv
    exact parseEntry_id_ne_empty hpe

theorem empty_name_cached_empty_id_skipped_witness :
    parseEntry (.dict wRawEmptyName) = some ⟨"idE", "", none⟩ ∧
    (⟨"idE", "", none⟩ : Deck) ∈
      lookupDecks (loadDecks ([] ++ RawEntry.dict wRawEmptyName :: [])) "" :=
  (empty_name_cached_empty_id_skipped wRawEmptyName "idE" [] [] [] ""
    ⟨"idE", "", none⟩).1 rfl rfl (by decide)

end Pymochi
